import Mathlib

/-!
Verification of the state-dict-to-h5 codec (src/state_dict_to_h5/module.py).

The file shallowly embeds the DictStorage class: the encoder fromDict with its
inner helpers pack and recursiveInsert, the decoder toDict with its inner
helpers unpack and recursiveFetch, and the point accessors fetch and delete.

Store model. The HDF5 backend is external to the repository. We model a tree
node as either a Group (optional type attribute plus named children) or a
Leaf dataset (optional type attribute plus an opaque payload). Children are
kept as an ordered association list whose order is the iteration order the
store presents; creation appends at the end, so iteration order equals
insertion order in this model (h5py offers this with track order, and for
groups of at most ten numeric children even the default name order agrees).
Creating a dataset under an already used name fails, as it does in h5py.

Scalar payload model. Python floats are modelled opaquely by their bit
pattern, and tensors by an opaque host buffer value: numpy array round trips
of these payloads return the identical object content, which is what the
codec relies on. Python str and int payloads are modelled exactly. The
Python builtins str and int applied to integers are modelled by the decimal
printer pyStrOfInt and the decimal reader pyParseInt below; pyParseInt
accepts an optional sign followed by decimal digits (a strict subset of the
Python int builtin, which additionally strips whitespace and underscores;
no claim depends on those inputs).

Values outside the nine supported kinds are represented by the constructor
Value.unsupported, and raw store payloads returned by the permissive decoder
fallback by Value.raw.
-/

set_option autoImplicit false

deriving instance DecidableEq for Except

namespace StateDictH5

/-- Error outcomes of the codec, following the error taxonomy of the spec.
reservedKeyCollision and unsupportedValueType model the ValueError raises in
fromDict; keyNotFound models the KeyError raises in fetch and delete;
corruptKeyEncoding models the uncaught ValueError of the int builtin on a
non-numeric remainder after the reserved prefix; missingTag models the
KeyError of a missing type attribute; datasetExists models the h5py error
when create_dataset is given an existing name; storeError models the
remaining h5py type errors on misused nodes; infiniteLoop marks the one
spot where the Python code would loop forever. -/
inductive Err where
  | reservedKeyCollision
  | unsupportedValueType
  | keyNotFound
  | corruptKeyEncoding
  | missingTag
  | datasetExists
  | storeError
  | infiniteLoop
deriving DecidableEq

/-- Opaque model of a Python float: numpy stores and returns the identical
double, so only identity of the bit pattern matters to the codec. -/
structure FloatVal where
  bits : Int
deriving DecidableEq

/-- Opaque model of a torch tensor moved to host memory: the codec treats
the buffer as an opaque payload. -/
structure TensorVal where
  buf : Nat
deriving DecidableEq

/-- Mapping keys as the code dispatches on them: Python bool is an instance
of int, so boolean keys take the integer branch of recursiveInsert; they are
kept as a separate constructor to model that faithfully. -/
inductive Key where
  | int (i : Int)
  | str (s : String)
  | bool (b : Bool)
deriving DecidableEq

/-- Leaf payloads as written by pack: an empty numpy array for None, a zero
dimensional numpy array for bool, float and int, utf-8 bytes for str, and a
host buffer for tensors. -/
inductive Payload where
  | emptyArr
  | intArr (i : Int)
  | floatArr (f : FloatVal)
  | boolArr (b : Bool)
  | bytes (s : String)
  | ndarray (t : TensorVal)
deriving DecidableEq

mutual
/-- The universe of Python values the codec touches. dict, list and tuple
are the containers; null, bool, int, float, str and tensor are the leaf
kinds of pack; unsupported stands for any other Python object; raw stands
for a raw store payload returned by the permissive decoder fallback. -/
inductive Value where
  | null
  | bool (b : Bool)
  | int (i : Int)
  | float (f : FloatVal)
  | str (s : String)
  | tensor (t : TensorVal)
  | dict (es : EntryList)
  | list (vs : ValueList)
  | tuple (vs : ValueList)
  | unsupported (id : Nat)
  | raw (p : Payload)
deriving DecidableEq

/-- Entries of a Python dict in insertion order, keys unique. -/
inductive EntryList where
  | nil
  | cons (k : Key) (v : Value) (rest : EntryList)
deriving DecidableEq

/-- Elements of a Python list or tuple in order. -/
inductive ValueList where
  | nil
  | cons (v : Value) (rest : ValueList)
deriving DecidableEq
end

mutual
/-- A tree store node: a Group carries an optional type attribute and named
children in store iteration order; a Leaf dataset carries an optional type
attribute and a payload. A missing attribute models a node whose attrs
mapping has no type entry. -/
inductive Node where
  | group (tag : Option String) (children : Children)
  | leaf (tag : Option String) (payload : Payload)
deriving DecidableEq

/-- Named children of a group in store iteration order. -/
inductive Children where
  | nil
  | cons (name : String) (node : Node) (rest : Children)
deriving DecidableEq
end

/-! ## Children helpers (the store interface) -/

/-- Lookup of a child by name, as the store getChild. -/
def childLookup : Children → String → Option Node
  | .nil, _ => none
  | .cons m y rest, n => if m = n then some y else childLookup rest n

/-- Membership test of a child name, modelling the Python in operator on a
group. -/
def childMem (chs : Children) (n : String) : Bool :=
  (childLookup chs n).isSome

/-- Concatenation of two child lists. -/
def appendC : Children → Children → Children
  | .nil, c => c
  | .cons m y rest, c => .cons m y (appendC rest c)

/-- Creation of a child appends it at the end of the iteration order. -/
def childAppend (chs : Children) (n : String) (x : Node) : Children :=
  appendC chs (.cons n x .nil)

/-- Replacement of the child of a given name in place, keeping its position
in the iteration order; appends when the name is absent. -/
def childSet : Children → String → Node → Children
  | .nil, n, x => .cons n x .nil
  | .cons m y rest, n, x =>
    if m = n then .cons m x rest else .cons m y (childSet rest n x)

/-- Removal of the child of a given name, modelling del on a group member. -/
def childRemove : Children → String → Children
  | .nil, _ => .nil
  | .cons m y rest, n => if m = n then rest else .cons m y (childRemove rest n)

/-- Test for a group with no children, modelling len of the keys view. -/
def nodeChildless : Node → Bool
  | .group _ .nil => true
  | _ => false

/-- Renaming of every child by an arbitrary function on names; used to state
that the sequence decoder ignores child names. -/
def renameC : (String → String) → Children → Children
  | _, .nil => .nil
  | f, .cons n x rest => .cons (f n) x (renameC f rest)

/-! ## Model of the Python builtins str and int on integers -/

/-- Decimal digit character for a digit below ten. -/
def digitChar (d : Nat) : Char :=
  Char.ofNat (48 + d)

/-- Fuel based decimal printer for naturals, most significant digit first;
with fuel above the argument it is the standard decimal form. -/
def natToStrAux : Nat → Nat → List Char
  | 0, _ => []
  | f + 1, n =>
    if n < 10 then [digitChar n]
    else natToStrAux f (n / 10) ++ [digitChar (n % 10)]

/-- Model of the Python str builtin on a natural number. -/
def pyStrOfNat (n : Nat) : String :=
  ⟨natToStrAux (n + 1) n⟩

/-- Model of the Python str builtin on an integer: decimal digits with a
leading minus sign for negatives. -/
def pyStrOfInt : Int → String
  | .ofNat n => pyStrOfNat n
  | .negSucc m => "-" ++ pyStrOfNat (m + 1)

/-- Numeric value of a decimal digit character, none for other characters. -/
def charDigit : Char → Option Nat
  | c => if 48 ≤ c.toNat ∧ c.toNat ≤ 57 then some (c.toNat - 48) else none

/-- Accumulating decimal reader over characters, none on any non digit. -/
def parseNatAux : List Char → Nat → Option Nat
  | [], acc => some acc
  | c :: rest, acc =>
    match charDigit c with
    | none => none
    | some d => parseNatAux rest (acc * 10 + d)

/-- Decimal reader for a nonempty all digit character list. -/
def pyParseNat (l : List Char) : Option Nat :=
  match l with
  | [] => none
  | _ :: _ => parseNatAux l 0

/-- Character level body of the model of the Python int builtin: an optional
sign followed by decimal digits. -/
def pyParseIntList : List Char → Option Int
  | [] => none
  | c :: cs =>
    if c = '-' then (pyParseNat cs).map (fun m => -(m : Int))
    else if c = '+' then (pyParseNat cs).map (fun m => (m : Int))
    else (pyParseNat (c :: cs)).map (fun m => (m : Int))

/-- Model of the Python int builtin on a string. -/
def pyParseInt (s : String) : Option Int :=
  pyParseIntList s.data

/-- Prefix test on character lists. -/
def listLeads : List Char → List Char → Bool
  | [], _ => true
  | _ :: _, [] => false
  | p :: ps, c :: cs => (p == c) && listLeads ps cs

/-- Model of the Python startswith method. -/
def pyStartsWith (s p : String) : Bool :=
  listLeads p.data s.data

/-- Model of the Python slice from an index to the end. -/
def strDrop (s : String) (n : Nat) : String :=
  ⟨s.data.drop n⟩

/-! ## Key codec -/

/-- Key escaping of recursiveInsert, module.py lines 131 to 144: an integer
key (and therefore also a boolean key, since Python bool is an instance of
int) becomes the reserved prefix plus its str form; a string key equal to
the sentinel or starting with the reserved prefix is rejected; the empty
string becomes the sentinel; any other string is used verbatim. -/
def encodeKey : Key → Except Err String
  | .int i => .ok ("__int__" ++ pyStrOfInt i)
  | .bool b => .ok ("__int__" ++ (if b then "True" else "False"))
  | .str s =>
    if pyStartsWith s "__int__" then .error .reservedKeyCollision
    else if s = "__emptyString__" then .error .reservedKeyCollision
    else if s = "" then .ok "__emptyString__"
    else .ok s

/-- Key unescaping of recursiveFetch, module.py lines 88 to 94: the sentinel
decodes to the empty string, a name starting with the reserved prefix
decodes to the integer parsed from the remainder (an unparseable remainder
is a fatal error, the uncaught ValueError of the int builtin), and any other
name decodes verbatim. -/
def decodeKey (name : String) : Except Err Key :=
  if name = "__emptyString__" then .ok (.str "")
  else if pyStartsWith name "__int__" then
    match pyParseInt (strDrop name 7) with
    | some i => .ok (.int i)
    | none => .error .corruptKeyEncoding
  else .ok (.str name)

/-- Canonical encoded name of a key, defined from encodeKey; meaningful for
keys that encodeKey accepts. -/
def encKeyName (k : Key) : String :=
  match encodeKey k with
  | .ok n => n
  | .error _ => ""

/-! ## Encoder (fromDict, module.py lines 104 to 193) -/

/-- Leaf packing, module.py lines 106 to 127, with the source dispatch
order: None, tensor, bool, float, int, str, else a fatal ValueError. The
bool test precedes the float and int tests exactly as in the source. -/
def pack : Value → Except Err (Payload × String)
  | .null => .ok (.emptyArr, "None")
  | .tensor t => .ok (.ndarray t, "tensor")
  | .bool b => .ok (.boolArr b, "bool")
  | .float f => .ok (.floatArr f, "float")
  | .int i => .ok (.intArr i, "int")
  | .str s => .ok (.bytes s, "str")
  | _ => .error .unsupportedValueType

mutual
/-- Insertion of one value under one child name, the shared body of the two
branches of recursiveInsert (module.py lines 146 to 164 for dict entries and
166 to 186 for sequence elements): a nested dict, list or tuple creates a
tagged group when the name is absent and then recurses into the existing
child (descending into a dataset is a store type error); any other value is
packed and written as a fresh dataset, where an existing name makes
create_dataset fail. -/
def insertChild (chs : Children) (name : String) (v : Value) : Except Err Children :=
  match v with
  | .dict es =>
    let chs1 := if childMem chs name then chs
                else childAppend chs name (.group (some "dict") .nil)
    match childLookup chs1 name with
    | some (.group t sub) =>
      (insertEntries sub es).map (fun sub2 => childSet chs1 name (.group t sub2))
    | some (.leaf _ _) => .error .storeError
    | none => .error .storeError
  | .list vs =>
    let chs1 := if childMem chs name then chs
                else childAppend chs name (.group (some "list") .nil)
    match childLookup chs1 name with
    | some (.group t sub) =>
      (insertElems sub 0 vs).map (fun sub2 => childSet chs1 name (.group t sub2))
    | some (.leaf _ _) => .error .storeError
    | none => .error .storeError
  | .tuple vs =>
    let chs1 := if childMem chs name then chs
                else childAppend chs name (.group (some "tuple") .nil)
    match childLookup chs1 name with
    | some (.group t sub) =>
      (insertElems sub 0 vs).map (fun sub2 => childSet chs1 name (.group t sub2))
    | some (.leaf _ _) => .error .storeError
    | none => .error .storeError
  | v => do
    let pt ← pack v
    if childMem chs name then .error .datasetExists
    else .ok (childAppend chs name (.leaf (some pt.2) pt.1))

/-- The dict branch of recursiveInsert, module.py lines 130 to 164: entries
are processed in insertion order, the key is escaped first, then the value
is dispatched. -/
def insertEntries (chs : Children) (es : EntryList) : Except Err Children :=
  match es with
  | .nil => .ok chs
  | .cons k v rest => do
    let name ← encodeKey k
    let chs2 ← insertChild chs name v
    insertEntries chs2 rest

/-- The sequence branch of recursiveInsert, module.py lines 165 to 186:
elements are processed in order under the decimal form of their index. -/
def insertElems (chs : Children) (i : Nat) (vs : ValueList) : Except Err Children :=
  match vs with
  | .nil => .ok chs
  | .cons v rest => do
    let chs2 ← insertChild chs (pyStrOfNat i) v
    insertElems chs2 (i + 1) rest
end

/-- Entry point fromDict, module.py lines 187 to 193: the root tag is set
only for dict, list and tuple, then recursiveInsert runs; a value of any
other kind falls through the dispatch of recursiveInsert without effect, so
the store is returned unchanged. DictStorage always holds a group, so a
leaf root is a store type error. -/
def fromDict (root : Node) (v : Value) : Except Err Node :=
  match root with
  | .leaf _ _ => .error .storeError
  | .group t chs =>
    match v with
    | .dict es => (insertEntries chs es).map (fun c2 => Node.group (some "dict") c2)
    | .list vs => (insertElems chs 0 vs).map (fun c2 => Node.group (some "list") c2)
    | .tuple vs => (insertElems chs 0 vs).map (fun c2 => Node.group (some "tuple") c2)
    | _ => .ok (.group t chs)

/-! ## Decoder (toDict, module.py lines 60 to 101) -/

/-- Model of the numpy item call on a stored payload: a zero dimensional
array returns its scalar; the empty array, a byte string and a true ndarray
all raise, modelled as a store type error. -/
def itemOf : Payload → Except Err Value
  | .intArr i => .ok (.int i)
  | .floatArr f => .ok (.float f)
  | .boolArr b => .ok (.bool b)
  | _ => .error .storeError

/-- Leaf unpacking, module.py lines 62 to 75, dispatching on the type
attribute in source order: None ignores the payload; float and int return
the item of the stored array (the Python type of the result is fixed by the
array, not the tag); bool coerces the item with the bool builtin; str
decodes utf-8 bytes; tensor rebuilds a tensor from the host buffer; a
missing attribute raises KeyError; any other tag prints a warning and
returns the raw payload. The bool builtin on an opaque float payload is not
modelled and the tensor branch is modelled only for true ndarray payloads;
neither combination is produced by pack. -/
def unpack : Option String → Payload → Except Err Value
  | none, _ => .error .missingTag
  | some tag, p =>
    if tag = "None" then .ok .null
    else if tag = "float" ∨ tag = "int" then itemOf p
    else if tag = "bool" then
      match itemOf p with
      | .ok (.bool b) => .ok (.bool b)
      | .ok (.int i) => .ok (.bool (decide (i ≠ 0)))
      | _ => .error .storeError
    else if tag = "str" then
      match p with
      | .bytes s => .ok (.str s)
      | _ => .error .storeError
    else if tag = "tensor" then
      match p with
      | .ndarray t => .ok (.tensor t)
      | _ => .error .storeError
    else .ok (.raw p)

/-- Python dict assignment: an existing key keeps its position and is
overwritten, a new key is appended. -/
def entryUpsert : EntryList → Key → Value → EntryList
  | .nil, k, v => .cons k v .nil
  | .cons k0 v0 rest, k, v =>
    if k0 = k then .cons k0 v rest else .cons k0 v0 (entryUpsert rest k v)

mutual
/-- The body of recursiveFetch, module.py lines 76 to 100, together with the
call site dispatch on isinstance: datasets are unpacked, a group tagged list
or tuple collects its children in store iteration order into a sequence, and
a group with any other tag is read as a dict. A group without a type
attribute raises KeyError. -/
def decodeNode : Node → Except Err Value
  | .leaf t p => unpack t p
  | .group none _ => .error .missingTag
  | .group (some t) chs =>
    if t = "list" ∨ t = "tuple" then
      (decodeSeq chs).map (fun vs => if t = "tuple" then Value.tuple vs else Value.list vs)
    else
      (decodeDict chs .nil).map (fun es => Value.dict es)

/-- Sequence collection, module.py lines 78 to 83: children are taken in
store iteration order; their names are never read. -/
def decodeSeq : Children → Except Err ValueList
  | .nil => .ok .nil
  | .cons _ node rest => do
    let v ← decodeNode node
    let vs ← decodeSeq rest
    .ok (.cons v vs)

/-- Dict collection, module.py lines 87 to 98: each child name is unescaped,
the child is decoded, and the pair is written into the growing dict. -/
def decodeDict : Children → EntryList → Except Err EntryList
  | .nil, acc => .ok acc
  | .cons name node rest, acc => do
    let k ← decodeKey name
    let v ← decodeNode node
    decodeDict rest (entryUpsert acc k v)
end

/-- Entry point toDict, module.py lines 60 to 101: recursiveFetch on the
root group. -/
def toDict (root : Node) : Except Err Value :=
  decodeNode root

/-! ## Point accessors (fetch and delete, module.py lines 24 to 58) -/

/-- The fetch accessor, module.py lines 24 to 31: walk child by child,
raising KeyError at the first missing name, then return the raw payload of
the final node; subscripting a group with an empty tuple is a store type
error, as is the in test on a dataset. -/
def fetchOp : Node → List String → Except Err Payload
  | .leaf _ p, [] => .ok p
  | .group _ _, [] => .error .storeError
  | .group _ chs, k :: rest =>
    match childLookup chs k with
    | none => .error .keyNotFound
    | some c => fetchOp c rest
  | .leaf _ _, _ :: _ => .error .storeError

/-- Navigation and removal part of delete, module.py lines 44 to 53: walk to
the parent of the final key, raising KeyError at any missing name, then
remove the final child. An empty key list is the Python IndexError on the
final subscript, and walking into a dataset is a store type error. -/
def deleteCore : Node → List String → Except Err Node
  | .leaf _ _, _ => .error .storeError
  | .group _ _, [] => .error .storeError
  | .group t chs, [k] =>
    if childMem chs k then .ok (.group t (childRemove chs k))
    else .error .keyNotFound
  | .group t chs, k :: k2 :: rest =>
    match childLookup chs k with
    | none => .error .keyNotFound
    | some c => (deleteCore c (k2 :: rest)).map (fun c2 => Node.group t (childSet chs k c2))

/-- The delete accessor, module.py lines 44 to 58. The recursive branch is
the loop on lines 54 to 58: it walks upward while the current group is
childless, but the statement del position only unbinds the Python local
variable and never deletes a node from the store, so the loop has no store
effect. It terminates because the first step up reaches a group that still
contains the group just walked from; the one exception is a single element
key list whose removal leaves the root childless, where the parent of the
root is the root itself and the loop runs forever, modelled as the
infiniteLoop outcome. -/
def deleteOp (root : Node) (keys : List String) (recursive : Bool) : Except Err Node :=
  (deleteCore root keys).bind (fun t =>
    if recursive then
      if keys.length == 1 && nodeChildless t then .error .infiniteLoop
      else .ok t
    else .ok t)

/-! ## Round trip and supported values -/

/-- A fresh file root: a group with no type attribute and no children. -/
def emptyRoot : Node :=
  Node.group none Children.nil

/-- Full round trip through a fresh store: encode with fromDict, then decode
with toDict. -/
def roundTrip (v : Value) : Except Err Value :=
  (fromDict emptyRoot v).bind toDict

/-- Top level containers, the only values for which fromDict writes a root
tag and recursiveInsert takes a branch. -/
def topContainer : Value → Bool
  | .dict _ => true
  | .list _ => true
  | .tuple _ => true
  | _ => false

/-- Keys that encode and decode back to themselves: integers, and strings
that do not collide with the two reserved forms. Boolean keys are excluded:
they encode under the integer rule but cannot be decoded. -/
def supportedKey : Key → Bool
  | .int _ => true
  | .bool _ => false
  | .str s => !pyStartsWith s "__int__" && !(s == "__emptyString__")

/-- Membership of a key in an entry list. -/
def keyMemE (k : Key) : EntryList → Bool
  | .nil => false
  | .cons k0 _ rest => k0 == k || keyMemE k rest

mutual
/-- Supported values: any finite nesting of the nine kinds, with supported
and pairwise distinct mapping keys. -/
def supportedV : Value → Bool
  | .null | .bool _ | .int _ | .float _ | .str _ | .tensor _ => true
  | .dict es => supportedE es
  | .list vs => supportedL vs
  | .tuple vs => supportedL vs
  | .unsupported _ => false
  | .raw _ => false

/-- Supported entry lists: supported distinct keys and supported values. -/
def supportedE : EntryList → Bool
  | .nil => true
  | .cons k v rest =>
    supportedKey k && !keyMemE k rest && supportedV v && supportedE rest

/-- Supported element lists. -/
def supportedL : ValueList → Bool
  | .nil => true
  | .cons v rest => supportedV v && supportedL rest
end

/-! ## Closed form of encoding into a fresh group -/

mutual
/-- Closed form of the node written by recursiveInsert for one value under a
fresh name; used only in proofs, meaningful for supported values. -/
def encNode : Value → Node
  | .dict es => .group (some "dict") (encEntries es)
  | .list vs => .group (some "list") (encElems 0 vs)
  | .tuple vs => .group (some "tuple") (encElems 0 vs)
  | v =>
    match pack v with
    | .ok pt => .leaf (some pt.2) pt.1
    | .error _ => .leaf none .emptyArr

/-- Closed form of the children written for a dict into a fresh group. -/
def encEntries : EntryList → Children
  | .nil => .nil
  | .cons k v rest => .cons (encKeyName k) (encNode v) (encEntries rest)

/-- Closed form of the children written for a sequence into a fresh group,
starting at a given index. -/
def encElems : Nat → ValueList → Children
  | _, .nil => .nil
  | i, .cons v rest => .cons (pyStrOfNat i) (encNode v) (encElems (i + 1) rest)
end

/-- Concatenation of entry lists. -/
def appendE : EntryList → EntryList → EntryList
  | .nil, b => b
  | .cons k v rest, b => .cons k v (appendE rest b)

/-- Left biased choice on optional nodes, used to describe lookup in a
concatenation. -/
def orN : Option Node → Option Node → Option Node
  | some y, _ => some y
  | none, b => b

/-- Freshness of the encoded names of an entry list with respect to a set of
children. -/
def freshE (es : EntryList) (chs : Children) : Prop :=
  ∀ k, keyMemE k es = true → childMem chs (encKeyName k) = false

/-- Freshness of all decimal index names from a starting index with respect
to a set of children. -/
def freshL (i : Nat) (chs : Children) : Prop :=
  ∀ j, i ≤ j → childMem chs (pyStrOfNat j) = false

/-- Concrete scenario of the spec, section 8: a dict with an empty string
key, an integer key, and a nested heterogeneous list; the float carries the
bit pattern of 2.5. -/
def sampleValue : Value :=
  .dict (.cons (.str "") (.int 1)
    (.cons (.int 0) (.str "x")
      (.cons (.str "k")
        (.list (.cons (.int 1) (.cons (.float ⟨4612811918334230528⟩)
          (.cons .null .nil)))) .nil)))

/-! ## Lemmas on the decimal printer and reader -/

theorem charDigit_digitChar (d : Nat) (h : d < 10) : charDigit (digitChar d) = some d := by
  interval_cases d <;> decide

theorem digitChar_ne_minus (d : Nat) (h : d < 10) : digitChar d ≠ '-' := by
  interval_cases d <;> decide

theorem digitChar_ne_plus (d : Nat) (h : d < 10) : digitChar d ≠ '+' := by
  interval_cases d <;> decide

theorem natToStrAux_ne_nil (f n : Nat) (h : n < f) : natToStrAux f n ≠ [] := by
  match f with
  | 0 => omega
  | f + 1 =>
    simp only [natToStrAux]
    split
    · simp
    · simp

theorem parseNatAux_append (l1 l2 : List Char) (acc : Nat) :
    parseNatAux (l1 ++ l2) acc =
      match parseNatAux l1 acc with
      | none => none
      | some a => parseNatAux l2 a := by
  induction l1 generalizing acc with
  | nil => simp [parseNatAux]
  | cons c rest ih =>
    cases hc : charDigit c <;> simp [parseNatAux, hc, ih]

theorem natToStrAux_parse (f : Nat) : ∀ n acc, n < f →
    parseNatAux (natToStrAux f n) acc =
      some (acc * 10 ^ (natToStrAux f n).length + n) := by
  induction f with
  | zero => intro n acc h; omega
  | succ f ih =>
    intro n acc h
    by_cases h10 : n < 10
    · simp [natToStrAux, if_pos h10, parseNatAux, charDigit_digitChar n h10]
    · simp only [natToStrAux, if_neg h10]
      rw [parseNatAux_append, ih (n / 10) acc (by omega)]
      simp only [parseNatAux, charDigit_digitChar (n % 10) (by omega)]
      rw [List.length_append]
      congr 1
      generalize (natToStrAux f (n / 10)).length = L
      simp only [List.length_cons, List.length_nil, zero_add]
      rw [pow_succ]
      have h1 : (acc * 10 ^ L + n / 10) * 10 + n % 10 =
          acc * (10 ^ L * 10) + (n / 10 * 10 + n % 10) := by ring
      rw [h1]
      have h2 : n / 10 * 10 + n % 10 = n := by omega
      rw [h2]

theorem pyParseNat_natToStrAux (n : Nat) :
    pyParseNat (natToStrAux (n + 1) n) = some n := by
  have hne := natToStrAux_ne_nil (n + 1) n (by omega)
  have hp := natToStrAux_parse (n + 1) n 0 (by omega)
  cases hq : natToStrAux (n + 1) n with
  | nil => exact absurd hq hne
  | cons c cs =>
    rw [hq] at hp
    simpa [pyParseNat] using hp

theorem natToStrAux_head (f : Nat) : ∀ n, n < f →
    ∃ d cs, d < 10 ∧ natToStrAux f n = digitChar d :: cs := by
  induction f with
  | zero => intro n h; omega
  | succ f ih =>
    intro n h
    by_cases h10 : n < 10
    · exact ⟨n, [], h10, by simp [natToStrAux, if_pos h10]⟩
    · obtain ⟨d, cs, hd, heq⟩ := ih (n / 10) (by omega)
      exact ⟨d, cs ++ [digitChar (n % 10)], hd, by simp [natToStrAux, if_neg h10, heq]⟩

theorem pyParseInt_pyStrOfInt (i : Int) : pyParseInt (pyStrOfInt i) = some i := by
  cases i with
  | ofNat n =>
    obtain ⟨d, cs, hd, heq⟩ := natToStrAux_head (n + 1) n (by omega)
    have hdata : (pyStrOfInt (Int.ofNat n)).data = natToStrAux (n + 1) n := rfl
    rw [pyParseInt, hdata, heq]
    simp only [pyParseIntList]
    rw [if_neg (digitChar_ne_minus d hd), if_neg (digitChar_ne_plus d hd)]
    rw [← heq, pyParseNat_natToStrAux n]
    rfl
  | negSucc m =>
    have hdata : (pyStrOfInt (Int.negSucc m)).data = '-' :: natToStrAux (m + 2) (m + 1) := rfl
    rw [pyParseInt, hdata]
    simp only [pyParseIntList]
    rw [if_pos trivial, pyParseNat_natToStrAux (m + 1)]
    simp [Int.negSucc_eq]

theorem pyStrOfNat_inj (a b : Nat) (h : pyStrOfNat a = pyStrOfNat b) : a = b := by
  have ha := pyParseNat_natToStrAux a
  have hb := pyParseNat_natToStrAux b
  have hdata : natToStrAux (a + 1) a = natToStrAux (b + 1) b := congrArg String.data h
  rw [hdata, hb] at ha
  exact (Option.some_inj.mp ha).symm

/-! ## Lemmas on children -/

theorem childLookup_appendC : ∀ (c1 c2 : Children) (n : String),
    childLookup (appendC c1 c2) n = orN (childLookup c1 n) (childLookup c2 n)
  | .nil, c2, n => rfl
  | .cons m y rest, c2, n => by
    by_cases h : m = n
    · simp [appendC, childLookup, h, orN]
    · simp [appendC, childLookup, h, childLookup_appendC rest c2 n]

theorem childMem_appendC (c1 c2 : Children) (n : String) :
    childMem (appendC c1 c2) n = (childMem c1 n || childMem c2 n) := by
  unfold childMem
  rw [childLookup_appendC]
  cases childLookup c1 n <;> simp [orN]

theorem childMem_single (n m : String) (x : Node) :
    childMem (Children.cons n x .nil) m = (n == m) := by
  by_cases h : n = m <;> simp [childMem, childLookup, h]

theorem childLookup_append_self (chs : Children) (n : String) (x : Node)
    (h : childMem chs n = false) :
    childLookup (childAppend chs n x) n = some x := by
  rw [childAppend, childLookup_appendC]
  unfold childMem at h
  cases hq : childLookup chs n with
  | some y => rw [hq] at h; simp at h
  | none => simp [orN, childLookup]

theorem childMem_append_other (chs : Children) (n m : String) (x : Node)
    (hm : childMem chs m = false) (hne : n ≠ m) :
    childMem (childAppend chs n x) m = false := by
  rw [childAppend, childMem_appendC, hm, childMem_single]
  simp [hne]

theorem childSet_append_self : ∀ (chs : Children) (n : String) (x y : Node),
    childMem chs n = false →
    childSet (childAppend chs n x) n y = childAppend chs n y
  | .nil, n, x, y, _ => by simp [childAppend, appendC, childSet]
  | .cons m z rest, n, x, y, h => by
    have hmn : ¬(m = n) := by
      intro he
      rw [childMem, childLookup, if_pos he] at h
      simp at h
    have hrest : childMem rest n = false := by
      rw [childMem, childLookup, if_neg hmn] at h
      exact h
    simp [childAppend, appendC, childSet, hmn] at *
    exact childSet_append_self rest n x y hrest

theorem appendC_assoc : ∀ (a b c : Children),
    appendC (appendC a b) c = appendC a (appendC b c)
  | .nil, b, c => rfl
  | .cons m y rest, b, c => by simp [appendC, appendC_assoc rest b c]

theorem appendC_nil : ∀ (a : Children), appendC a .nil = a
  | .nil => rfl
  | .cons m y rest => by simp [appendC, appendC_nil rest]

/-! ## Lemmas on entry lists -/

theorem keyMemE_appendE (k : Key) : ∀ (a b : EntryList),
    keyMemE k (appendE a b) = (keyMemE k a || keyMemE k b)
  | .nil, b => by simp [appendE, keyMemE]
  | .cons k0 v0 rest, b => by
    simp [appendE, keyMemE, keyMemE_appendE k rest b, Bool.or_assoc]

theorem appendE_assoc : ∀ (a b c : EntryList),
    appendE (appendE a b) c = appendE a (appendE b c)
  | .nil, b, c => rfl
  | .cons k v rest, b, c => by simp [appendE, appendE_assoc rest b c]

theorem appendE_nil : ∀ (a : EntryList), appendE a .nil = a
  | .nil => rfl
  | .cons k v rest => by simp [appendE, appendE_nil rest]

theorem entryUpsert_fresh : ∀ (acc : EntryList) (k : Key) (v : Value),
    keyMemE k acc = false →
    entryUpsert acc k v = appendE acc (.cons k v .nil)
  | .nil, k, v, _ => rfl
  | .cons k0 v0 rest, k, v, h => by
    have h0 : ¬(k0 = k) := by
      intro he
      simp [keyMemE, he] at h
    have hrest : keyMemE k rest = false := by
      simp [keyMemE, Bool.or_eq_false_iff] at h
      exact h.2
    simp [entryUpsert, appendE, h0]
    exact entryUpsert_fresh rest k v hrest

theorem keys_supported : ∀ (es : EntryList) (k : Key),
    supportedE es = true → keyMemE k es = true → supportedKey k = true
  | .cons k0 v0 rest, k, hs, hm => by
    simp [supportedE, Bool.and_eq_true] at hs
    simp [keyMemE, Bool.or_eq_true] at hm
    cases hm with
    | inl he =>
      cases (beq_iff_eq.mp (by simpa using he) : k0 = k)
      exact hs.1.1.1
    | inr hrest => exact keys_supported rest k hs.2 hrest

/-! ## Lemmas on the key codec -/

theorem listLeads_refl_append : ∀ (p rest : List Char), listLeads p (p ++ rest) = true
  | [], _ => rfl
  | c :: cs, rest => by simp [listLeads, listLeads_refl_append cs rest]

theorem pyStartsWith_int_append (t : String) :
    pyStartsWith ("__int__" ++ t) "__int__" = true := by
  have h : ("__int__" ++ t).data = "__int__".data ++ t.data := rfl
  unfold pyStartsWith
  rw [h]
  exact listLeads_refl_append _ _

theorem int_append_ne_sentinel (t : String) : "__int__" ++ t ≠ "__emptyString__" := by
  intro h
  have h2 : ("__int__" ++ t).data = "__emptyString__".data := congrArg String.data h
  have h3 : ("__int__" ++ t).data = ['_','_','i','n','t','_','_'] ++ t.data := rfl
  rw [h3] at h2
  simp at h2

theorem strDrop_int_append (t : String) : strDrop ("__int__" ++ t) 7 = t := by
  show String.mk ((("__int__" ++ t).data).drop 7) = t
  have h3 : ("__int__" ++ t).data = ['_','_','i','n','t','_','_'] ++ t.data := rfl
  rw [h3]
  have h4 : (7 : Nat) = (['_','_','i','n','t','_','_'] : List Char).length := rfl
  rw [h4, List.drop_left]

theorem decodeKey_int_name (i : Int) :
    decodeKey ("__int__" ++ pyStrOfInt i) = .ok (.int i) := by
  unfold decodeKey
  rw [if_neg (int_append_ne_sentinel (pyStrOfInt i))]
  rw [pyStartsWith_int_append (pyStrOfInt i)]
  rw [if_pos rfl]
  rw [strDrop_int_append, pyParseInt_pyStrOfInt]

theorem encodeKey_ok_of_supported (k : Key) (h : supportedKey k = true) :
    encodeKey k = .ok (encKeyName k) := by
  cases k with
  | int i => rfl
  | bool b => simp [supportedKey] at h
  | str s =>
    have h2 : pyStartsWith s "__int__" = false ∧ ¬(s = "__emptyString__") := by
      simpa [supportedKey, Bool.and_eq_true] using h
    by_cases h3 : s = ""
    · subst h3; decide
    · simp [encodeKey, encKeyName, h2.1, h2.2, h3]

theorem decodeKey_encKeyName (k : Key) (h : supportedKey k = true) :
    decodeKey (encKeyName k) = .ok k := by
  cases k with
  | int i =>
    have he : encKeyName (.int i) = "__int__" ++ pyStrOfInt i := rfl
    rw [he, decodeKey_int_name]
  | bool b => simp [supportedKey] at h
  | str s =>
    have h2 : pyStartsWith s "__int__" = false ∧ ¬(s = "__emptyString__") := by
      simpa [supportedKey, Bool.and_eq_true] using h
    by_cases h3 : s = ""
    · subst h3; decide
    · have he : encKeyName (.str s) = s := by
        simp [encKeyName, encodeKey, h2.1, h2.2, h3]
      rw [he]
      unfold decodeKey
      rw [if_neg h2.2, h2.1]
      simp

theorem encKeyName_inj (k1 k2 : Key) (h1 : supportedKey k1 = true)
    (h2 : supportedKey k2 = true) (heq : encKeyName k1 = encKeyName k2) : k1 = k2 := by
  have d1 := decodeKey_encKeyName k1 h1
  have d2 := decodeKey_encKeyName k2 h2
  rw [heq, d2] at d1
  simpa using d1.symm

/-- Reduction of monadic bind on an ok result. -/
theorem okBind {β γ : Type} (a : β) (f : β → Except Err γ) :
    (Except.ok a >>= f : Except Err γ) = f a := rfl

/-- Reduction of monadic bind on an error result. -/
theorem errBind {β γ : Type} (e : Err) (f : β → Except Err γ) :
    (Except.error e >>= f : Except Err γ) = .error e := rfl

/-! ## Lemmas on the supported predicates -/

theorem supportedE_cons (k : Key) (v : Value) (rest : EntryList) :
    supportedE (.cons k v rest) = true ↔
      (supportedKey k = true ∧ keyMemE k rest = false ∧
       supportedV v = true ∧ supportedE rest = true) := by
  simp [supportedE, Bool.and_eq_true, and_assoc]

theorem supportedL_cons (v : Value) (rest : ValueList) :
    supportedL (.cons v rest) = true ↔
      (supportedV v = true ∧ supportedL rest = true) := by
  simp [supportedL, Bool.and_eq_true]

/-! ## Encoding into a fresh group equals the closed form -/

mutual
theorem insertChild_fresh (v : Value) : ∀ (chs : Children) (name : String),
    supportedV v = true → childMem chs name = false →
    insertChild chs name v = .ok (childAppend chs name (encNode v)) := by
  cases v with
  | dict es =>
    intro chs name hs hm
    have hsub := insertEntries_fresh es Children.nil (by simpa [supportedV] using hs)
      (fun k _ => rfl)
    have hlook := childLookup_append_self chs name (Node.group (some "dict") Children.nil) hm
    have hset := childSet_append_self chs name (Node.group (some "dict") Children.nil)
      (Node.group (some "dict") (encEntries es)) hm
    simp only [insertChild, hm, Bool.false_eq_true, if_false, hlook, appendC] at *
    simp only [hsub, Except.map, hset, encNode]
  | list vs =>
    intro chs name hs hm
    have hsub := insertElems_fresh vs Children.nil 0 (by simpa [supportedV] using hs)
      (fun j _ => rfl)
    have hlook := childLookup_append_self chs name (Node.group (some "list") Children.nil) hm
    have hset := childSet_append_self chs name (Node.group (some "list") Children.nil)
      (Node.group (some "list") (encElems 0 vs)) hm
    simp only [insertChild, hm, Bool.false_eq_true, if_false, hlook, appendC] at *
    simp only [hsub, Except.map, hset, encNode]
  | tuple vs =>
    intro chs name hs hm
    have hsub := insertElems_fresh vs Children.nil 0 (by simpa [supportedV] using hs)
      (fun j _ => rfl)
    have hlook := childLookup_append_self chs name (Node.group (some "tuple") Children.nil) hm
    have hset := childSet_append_self chs name (Node.group (some "tuple") Children.nil)
      (Node.group (some "tuple") (encElems 0 vs)) hm
    simp only [insertChild, hm, Bool.false_eq_true, if_false, hlook, appendC] at *
    simp only [hsub, Except.map, hset, encNode]
  | null =>
    intro chs name _ hm
    simp only [insertChild, pack, hm, Bool.false_eq_true, if_false]
    rfl
  | bool b =>
    intro chs name _ hm
    simp only [insertChild, pack, hm, Bool.false_eq_true, if_false]
    rfl
  | int i =>
    intro chs name _ hm
    simp only [insertChild, pack, hm, Bool.false_eq_true, if_false]
    rfl
  | float f =>
    intro chs name _ hm
    simp only [insertChild, pack, hm, Bool.false_eq_true, if_false]
    rfl
  | str s =>
    intro chs name _ hm
    simp only [insertChild, pack, hm, Bool.false_eq_true, if_false]
    rfl
  | tensor t =>
    intro chs name _ hm
    simp only [insertChild, pack, hm, Bool.false_eq_true, if_false]
    rfl
  | unsupported id =>
    intro chs name hs _
    simp [supportedV] at hs
  | raw p =>
    intro chs name hs _
    simp [supportedV] at hs

theorem insertEntries_fresh (es : EntryList) : ∀ (chs : Children),
    supportedE es = true → freshE es chs →
    insertEntries chs es = .ok (appendC chs (encEntries es)) := by
  cases es with
  | nil => intro chs _ _; simp [insertEntries, encEntries, appendC_nil]
  | cons k v rest =>
    intro chs hs hf
    have hparts := (supportedE_cons k v rest).mp hs
    have hok := encodeKey_ok_of_supported k hparts.1
    have hfk : childMem chs (encKeyName k) = false := hf k (by simp [keyMemE])
    have hchild := insertChild_fresh v chs (encKeyName k) hparts.2.2.1 hfk
    have hrest2 : freshE rest (childAppend chs (encKeyName k) (encNode v)) := by
      intro k2 hk2
      have hk2sup : supportedKey k2 = true := keys_supported rest k2 hparts.2.2.2 hk2
      have hne : encKeyName k ≠ encKeyName k2 := by
        intro he
        have hkk : k = k2 := encKeyName_inj k k2 hparts.1 hk2sup he
        subst hkk
        exact absurd hk2 (by simp [hparts.2.1])
      have hmem : childMem chs (encKeyName k2) = false :=
        hf k2 (by simp [keyMemE, hk2])
      exact childMem_append_other chs (encKeyName k) (encKeyName k2) (encNode v) hmem hne
    have hrec := insertEntries_fresh rest (childAppend chs (encKeyName k) (encNode v))
      hparts.2.2.2 hrest2
    simp only [childAppend] at hchild hrec
    simp only [insertEntries, hok, okBind, hchild, hrec, encEntries,
      appendC_assoc, appendC]

theorem insertElems_fresh (vs : ValueList) : ∀ (chs : Children) (i : Nat),
    supportedL vs = true → freshL i chs →
    insertElems chs i vs = .ok (appendC chs (encElems i vs)) := by
  cases vs with
  | nil => intro chs i _ _; simp [insertElems, encElems, appendC_nil]
  | cons v rest =>
    intro chs i hs hf
    have hparts := (supportedL_cons v rest).mp hs
    have hfi : childMem chs (pyStrOfNat i) = false := hf i (le_refl i)
    have hchild := insertChild_fresh v chs (pyStrOfNat i) hparts.1 hfi
    have hrest2 : freshL (i + 1) (childAppend chs (pyStrOfNat i) (encNode v)) := by
      intro j hj
      have hne : pyStrOfNat i ≠ pyStrOfNat j := by
        intro he
        have := pyStrOfNat_inj i j he
        omega
      have hmem : childMem chs (pyStrOfNat j) = false := hf j (by omega)
      exact childMem_append_other chs (pyStrOfNat i) (pyStrOfNat j) (encNode v) hmem hne
    have hrec := insertElems_fresh rest (childAppend chs (pyStrOfNat i) (encNode v))
      (i + 1) hparts.2 hrest2
    simp only [childAppend] at hchild hrec
    simp only [insertElems, okBind, hchild, hrec, encElems,
      appendC_assoc, appendC]
end

/-! ## Decoding the closed form recovers the value -/

mutual
theorem decodeNode_enc (v : Value) : supportedV v = true → decodeNode (encNode v) = .ok v := by
  cases v with
  | dict es =>
    intro hs
    have hd := decodeDict_enc es EntryList.nil (by simpa [supportedV] using hs)
      (fun k _ => rfl)
    show decodeNode (.group (some "dict") (encEntries es)) = .ok (.dict es)
    simp only [decodeNode]
    rw [if_neg (by decide : ¬("dict" = "list" ∨ "dict" = "tuple"))]
    rw [hd]
    simp [appendE, Except.map]
  | list vs =>
    intro hs
    have hd := decodeSeq_enc vs 0 (by simpa [supportedV] using hs)
    show decodeNode (.group (some "list") (encElems 0 vs)) = .ok (.list vs)
    simp [decodeNode, hd, Except.map]
  | tuple vs =>
    intro hs
    have hd := decodeSeq_enc vs 0 (by simpa [supportedV] using hs)
    show decodeNode (.group (some "tuple") (encElems 0 vs)) = .ok (.tuple vs)
    simp [decodeNode, hd, Except.map]
  | null => intro _; decide
  | bool b => intro _; cases b <;> decide
  | int i => intro _; simp [encNode, pack, decodeNode, unpack, itemOf]
  | float f => intro _; simp [encNode, pack, decodeNode, unpack, itemOf]
  | str s => intro _; simp [encNode, pack, decodeNode, unpack]
  | tensor t => intro _; simp [encNode, pack, decodeNode, unpack]
  | unsupported id => intro hs; simp [supportedV] at hs
  | raw p => intro hs; simp [supportedV] at hs

theorem decodeDict_enc (es : EntryList) : ∀ (acc : EntryList),
    supportedE es = true →
    (∀ k, keyMemE k es = true → keyMemE k acc = false) →
    decodeDict (encEntries es) acc = .ok (appendE acc es) := by
  cases es with
  | nil => intro acc _ _; simp [encEntries, decodeDict, appendE_nil]
  | cons k v rest =>
    intro acc hs hacc
    have hparts := (supportedE_cons k v rest).mp hs
    have hdk : decodeKey (encKeyName k) = .ok k := decodeKey_encKeyName k hparts.1
    have hdv := decodeNode_enc v hparts.2.2.1
    have hup : entryUpsert acc k v = appendE acc (.cons k v .nil) :=
      entryUpsert_fresh acc k v (hacc k (by simp [keyMemE]))
    have hacc2 : ∀ k2, keyMemE k2 rest = true →
        keyMemE k2 (appendE acc (.cons k v .nil)) = false := by
      intro k2 hk2
      rw [keyMemE_appendE]
      have h1 : keyMemE k2 acc = false := hacc k2 (by simp [keyMemE, hk2])
      have h2 : ¬(k = k2) := by
        intro he
        subst he
        exact absurd hk2 (by simp [hparts.2.1])
      simp [keyMemE, h1, h2]
    have hrec := decodeDict_enc rest (appendE acc (.cons k v .nil)) hparts.2.2.2 hacc2
    simp only [encEntries, decodeDict, hdk, okBind, hdv, hup, hrec,
      appendE_assoc, appendE]

theorem decodeSeq_enc (vs : ValueList) : ∀ (i : Nat),
    supportedL vs = true → decodeSeq (encElems i vs) = .ok vs := by
  cases vs with
  | nil => intro i _; simp [encElems, decodeSeq]
  | cons v rest =>
    intro i hs
    have hparts := (supportedL_cons v rest).mp hs
    simp only [encElems, decodeSeq, decodeNode_enc v hparts.1, okBind,
      decodeSeq_enc rest (i + 1) hparts.2]
end

/-! ## Helper for the sequence decoder ignoring names -/

theorem decodeSeq_renameC (f : String → String) : ∀ (chs : Children),
    decodeSeq (renameC f chs) = decodeSeq chs
  | .nil => rfl
  | .cons n x rest => by
    simp [renameC, decodeSeq, decodeSeq_renameC f rest]

/-! ## Claim theorems -/

/-- C1 (counterexample): the round trip claim fails for a supported value
that is not a container at the top level: encoding the bare integer five
writes nothing (fromDict has no branch for it and sets no root tag), and
decoding then fails on the missing root type attribute instead of returning
five. -/
theorem C1_counterexample :
    roundTrip (.int 5) = .error .missingTag ∧
    roundTrip (.int 5) ≠ .ok (.int 5) ∧
    supportedV (.int 5) = true := by
  refine ⟨by decide, by decide, by decide⟩

/-- C1 (amended): for every supported Value whose top level is a dict, list
or tuple (any finite nesting of the nine kinds below it, with integer or
non reserved string mapping keys), decoding after encoding into a fresh root
reproduces the value exactly: list versus tuple identity and element order
are preserved, and the mapping key lists including integer and empty string
keys are reproduced exactly. Top level non container values are silently
skipped by the encoder and do not round trip. -/
theorem C1_container_round_trip (v : Value) (hs : supportedV v = true)
    (hc : topContainer v = true) : roundTrip v = .ok v := by
  cases v with
  | dict es =>
    have hins := insertEntries_fresh es Children.nil (by simpa [supportedV] using hs)
      (fun k _ => rfl)
    have hdec := decodeNode_enc (Value.dict es) hs
    simp only [appendC] at hins
    simp only [roundTrip, fromDict, emptyRoot, hins, Except.map, Except.bind, toDict]
    exact hdec
  | list vs =>
    have hins := insertElems_fresh vs Children.nil 0 (by simpa [supportedV] using hs)
      (fun j _ => rfl)
    have hdec := decodeNode_enc (Value.list vs) hs
    simp only [appendC] at hins
    simp only [roundTrip, fromDict, emptyRoot, hins, Except.map, Except.bind, toDict]
    exact hdec
  | tuple vs =>
    have hins := insertElems_fresh vs Children.nil 0 (by simpa [supportedV] using hs)
      (fun j _ => rfl)
    have hdec := decodeNode_enc (Value.tuple vs) hs
    simp only [appendC] at hins
    simp only [roundTrip, fromDict, emptyRoot, hins, Except.map, Except.bind, toDict]
    exact hdec
  | null => simp [topContainer] at hc
  | bool b => simp [topContainer] at hc
  | int i => simp [topContainer] at hc
  | float f => simp [topContainer] at hc
  | str s => simp [topContainer] at hc
  | tensor t => simp [topContainer] at hc
  | unsupported id => simp [topContainer] at hc
  | raw p => simp [topContainer] at hc

/-- C1 (witness): the concrete scenario of the spec, a dict with an empty
string key, an integer key and a nested list, round trips exactly. -/
theorem C1_container_round_trip_witness :
    roundTrip sampleValue = .ok sampleValue :=
  C1_container_round_trip sampleValue (by decide) (by decide)

/-- C2: the key codec is a bijection on supported keys: every integer key
encodes to the reserved prefix plus its decimal form and decodes back;
every string key that does not collide with the reserved forms encodes to
the sentinel when empty and verbatim otherwise and decodes back; and every
string equal to the sentinel or starting with the reserved prefix is
rejected at encode time with the reserved key collision error. -/
theorem C2_key_codec_bijection :
    (∀ i : Int, (encodeKey (Key.int i)).bind decodeKey = .ok (Key.int i)) ∧
    (∀ s : String, pyStartsWith s "__int__" = false → ¬(s = "__emptyString__") →
      (encodeKey (Key.str s)).bind decodeKey = .ok (Key.str s)) ∧
    (∀ s : String, (s = "__emptyString__" ∨ pyStartsWith s "__int__" = true) →
      encodeKey (Key.str s) = .error .reservedKeyCollision) := by
  refine ⟨?_, ?_, ?_⟩
  · intro i
    have h := decodeKey_int_name i
    simp [encodeKey, Except.bind, h]
  · intro s h1 h2
    have hsup : supportedKey (Key.str s) = true := by
      simp [supportedKey, h1, h2]
    rw [encodeKey_ok_of_supported (Key.str s) hsup]
    simp [Except.bind]
    exact decodeKey_encKeyName (Key.str s) hsup
  · intro s h
    cases h with
    | inl he => subst he; decide
    | inr hp => simp [encodeKey, hp]

/-- C2 (witness): concrete instances of the key codec bijection and of the
reserved collision failure. -/
theorem C2_key_codec_bijection_witness :
    (encodeKey (Key.int (-42))).bind decodeKey = .ok (Key.int (-42)) ∧
    (encodeKey (Key.str "abc")).bind decodeKey = .ok (Key.str "abc") ∧
    (encodeKey (Key.str "")).bind decodeKey = .ok (Key.str "") ∧
    encodeKey (Key.str "__int__x") = .error .reservedKeyCollision ∧
    encodeKey (Key.str "__emptyString__") = .error .reservedKeyCollision :=
  ⟨C2_key_codec_bijection.1 (-42),
   C2_key_codec_bijection.2.1 "abc" (by decide) (by decide),
   C2_key_codec_bijection.2.1 "" (by decide) (by decide),
   C2_key_codec_bijection.2.2 "__int__x" (Or.inr (by decide)),
   C2_key_codec_bijection.2.2 "__emptyString__" (Or.inl rfl)⟩

/-- C3 (counterexample): the decoder does not sort the children of a list
group by the integer in the child name and does not reject non numeric
names: a list group whose iteration order is child 1 before child 0 decodes
in iteration order, not numeric order, and a list group with the non
numeric child name x decodes without any error. -/
theorem C3_counterexample :
    decodeNode (.group (some "list")
      (.cons "1" (.leaf (some "int") (.intArr 10))
        (.cons "0" (.leaf (some "int") (.intArr 20)) .nil))) =
      .ok (.list (.cons (.int 10) (.cons (.int 20) .nil))) ∧
    decodeNode (.group (some "list")
      (.cons "1" (.leaf (some "int") (.intArr 10))
        (.cons "0" (.leaf (some "int") (.intArr 20)) .nil))) ≠
      .ok (.list (.cons (.int 20) (.cons (.int 10) .nil))) ∧
    decodeNode (.group (some "list")
      (.cons "x" (.leaf (some "int") (.intArr 7)) .nil)) =
      .ok (.list (.cons (.int 7) .nil)) := by
  refine ⟨by decide, by decide, by decide⟩

/-- C3 (amended): for a group tagged list or tuple the decoder collects the
children in store iteration order and ignores their names entirely, so
renaming every child by any function leaves the decoded sequence unchanged;
the tag only selects the list or tuple wrapper; no corrupt sequence check
exists and no error is raised for non numeric or non contiguous names. -/
theorem C3_sequence_decode_iteration_order :
    (∀ (f : String → String) (chs : Children),
      decodeSeq (renameC f chs) = decodeSeq chs) ∧
    (∀ chs : Children,
      decodeNode (.group (some "list") chs) = (decodeSeq chs).map Value.list) ∧
    (∀ chs : Children,
      decodeNode (.group (some "tuple") chs) = (decodeSeq chs).map Value.tuple) := by
  refine ⟨fun f chs => decodeSeq_renameC f chs, fun chs => ?_, fun chs => ?_⟩
  · simp [decodeNode]
  · simp [decodeNode]

/-- C4 (code bug): encoding the same mapping twice into the same root does
not overwrite: the first encode writes the dataset, and the second encode
fails with the dataset name exists store error because recursiveInsert
calls create_dataset without deleting the existing dataset first, unlike
the point insert accessor which deletes then creates. -/
theorem C4_reencode_fails_dataset_exists :
    fromDict emptyRoot (.dict (.cons (.str "a") (.int 5) .nil)) =
      .ok (.group (some "dict") (.cons "a" (.leaf (some "int") (.intArr 5)) .nil)) ∧
    fromDict (.group (some "dict") (.cons "a" (.leaf (some "int") (.intArr 5)) .nil))
      (.dict (.cons (.str "a") (.int 5) .nil)) = .error .datasetExists := by
  refine ⟨by decide, by decide⟩

/-- C5 (code bug): recursive delete of the only leaf C under nested groups
A and B removes only C: the upward walk of the loop unbinds a Python local
instead of deleting store nodes, so the now empty groups B and A remain in
the store, and the result is not the empty root the claim describes. -/
theorem C5_recursive_delete_keeps_empty_ancestors :
    deleteOp
      (.group none (.cons "A" (.group (some "dict")
        (.cons "B" (.group (some "dict")
          (.cons "C" (.leaf (some "int") (.intArr 1)) .nil)) .nil)) .nil))
      ["A", "B", "C"] true =
    .ok (.group none (.cons "A" (.group (some "dict")
      (.cons "B" (.group (some "dict") .nil) .nil)) .nil)) ∧
    deleteOp
      (.group none (.cons "A" (.group (some "dict")
        (.cons "B" (.group (some "dict")
          (.cons "C" (.leaf (some "int") (.intArr 1)) .nil)) .nil)) .nil))
      ["A", "B", "C"] true ≠ .ok (.group none .nil) := by
  refine ⟨by decide, by decide⟩

/-- C6 (counterexample): a top level value of unsupported kind does not make
encoding fail: fromDict silently skips it, returning the unchanged store
with no unsupported value type error. -/
theorem C6_counterexample :
    fromDict emptyRoot (.unsupported 0) = .ok emptyRoot ∧
    fromDict emptyRoot (.unsupported 0) ≠ .error .unsupportedValueType := by
  refine ⟨by decide, by decide⟩

/-- C6 (amended): a value of unsupported kind nested inside a container
makes encoding fail with the unsupported value type error of pack, with no
fallback; but a top level value that is not a dict, list or tuple, whether
of supported kind or not, is silently skipped: fromDict writes nothing and
reports no error. -/
theorem C6_unsupported_nested_fails_top_skipped :
    (∀ (chs : Children) (name : String) (id : Nat),
      insertChild chs name (.unsupported id) = .error .unsupportedValueType) ∧
    (fromDict emptyRoot (.dict (.cons (.str "a") (.unsupported 0) .nil)) =
      .error .unsupportedValueType) ∧
    (∀ (tag : Option String) (chs : Children) (v : Value), topContainer v = false →
      fromDict (.group tag chs) v = .ok (.group tag chs)) := by
  refine ⟨?_, by decide, ?_⟩
  · intro chs name id
    simp [insertChild, pack, errBind]
  · intro tag chs v hv
    cases v <;> first
      | rfl
      | simp [topContainer] at hv

/-- C6 (witness): a concrete nested unsupported value is rejected and a
concrete top level integer is silently skipped. -/
theorem C6_unsupported_witness :
    insertChild Children.nil "z" (.unsupported 3) = .error .unsupportedValueType ∧
    fromDict emptyRoot (.int 7) = .ok emptyRoot :=
  ⟨C6_unsupported_nested_fails_top_skipped.1 Children.nil "z" 3,
   C6_unsupported_nested_fails_top_skipped.2.2 none Children.nil (.int 7) (by decide)⟩

/-- C7: fetch walks the tree child by child and fails with the key not
found error as soon as the first name is missing, whatever the remaining
path; after encoding a mapping of five under key a, fetch of that key
returns the packed payload of five; and after delete of that path a
subsequent fetch fails with key not found. -/
theorem C7_fetch_keynotfound_and_commute :
    (∀ (tag : Option String) (chs : Children) (k : String) (rest : List String),
      childLookup chs k = none →
      fetchOp (.group tag chs) (k :: rest) = .error .keyNotFound) ∧
    ((fromDict emptyRoot (.dict (.cons (.str "a") (.int 5) .nil))).bind
      (fun t => fetchOp t ["a"]) = .ok (.intArr 5)) ∧
    ((fromDict emptyRoot (.dict (.cons (.str "a") (.int 5) .nil))).bind
      (fun t => (deleteOp t ["a"] false).bind (fun t2 => fetchOp t2 ["a"])) =
      .error .keyNotFound) := by
  refine ⟨?_, by decide, by decide⟩
  · intro tag chs k rest h
    simp [fetchOp, h]

/-- C7 (witness): fetch on an empty group fails with key not found at the
first segment. -/
theorem C7_fetch_witness :
    fetchOp (.group none Children.nil) ["zz"] = .error .keyNotFound :=
  C7_fetch_keynotfound_and_commute.1 none Children.nil "zz" [] rfl

/-- C8: booleans are tagged bool by the encoder, never int, because the
bool branch of pack precedes the float and int branches exactly as the
isinstance chain does in the source, and the decoder returns a boolean
equal to the original, both as a mapping value and as a sequence element. -/
theorem C8_bool_tagged_bool :
    (∀ b : Bool, pack (.bool b) = .ok (.boolArr b, "bool")) ∧
    (∀ b : Bool, unpack (some "bool") (.boolArr b) = .ok (.bool b)) ∧
    (∀ b : Bool, roundTrip (.dict (.cons (.str "k") (.bool b) .nil)) =
      .ok (.dict (.cons (.str "k") (.bool b) .nil))) ∧
    (∀ b : Bool, roundTrip (.list (.cons (.bool b) .nil)) =
      .ok (.list (.cons (.bool b) .nil))) := by
  refine ⟨fun b => by cases b <;> decide, fun b => by cases b <;> decide,
    fun b => by cases b <;> decide, fun b => by cases b <;> decide⟩

/-- C9: a boolean mapping key takes the integer branch of the key escaping
because Python bool is an instance of int, so encoding succeeds and writes
the child name of the str form of the boolean, but that name cannot be
decoded: the remainder after the reserved prefix is not a parseable
integer, so decoding the encoded mapping fails and the mapping cannot be
round tripped. -/
theorem C9_bool_key_encodes_not_decodable :
    encodeKey (.bool true) = .ok "__int__True" ∧
    encodeKey (.bool false) = .ok "__int__False" ∧
    decodeKey "__int__True" = .error .corruptKeyEncoding ∧
    decodeKey "__int__False" = .error .corruptKeyEncoding ∧
    fromDict emptyRoot (.dict (.cons (.bool true) (.int 1) .nil)) =
      .ok (.group (some "dict")
        (.cons "__int__True" (.leaf (some "int") (.intArr 1)) .nil)) ∧
    toDict (.group (some "dict")
      (.cons "__int__True" (.leaf (some "int") (.intArr 1)) .nil)) =
      .error .corruptKeyEncoding := by
  refine ⟨by decide, by decide, by decide, by decide, by decide, by decide⟩

/-- C10: the decoder dispatches only on whether the group tag is list or
tuple; a group carrying any other tag, including an unknown one, is decoded
exactly as a dict group is, as a mapping of its children, with no error. -/
theorem C10_group_tag_fallback_dict (t : String) (chs : Children)
    (h1 : t ≠ "list") (h2 : t ≠ "tuple") :
    decodeNode (.group (some t) chs) = decodeNode (.group (some "dict") chs) := by
  simp only [decodeNode]
  rw [if_neg (by simp [h1, h2] : ¬(t = "list" ∨ t = "tuple"))]
  rw [if_neg (by decide : ¬("dict" = "list" ∨ "dict" = "tuple"))]

/-- C10 (witness): a group with the unknown tag banana decodes exactly as a
dict group. -/
theorem C10_group_tag_fallback_dict_witness :
    decodeNode (.group (some "banana")
      (.cons "a" (.leaf (some "int") (.intArr 3)) .nil)) =
    decodeNode (.group (some "dict")
      (.cons "a" (.leaf (some "int") (.intArr 3)) .nil)) :=
  C10_group_tag_fallback_dict "banana"
    (.cons "a" (.leaf (some "int") (.intArr 3)) .nil) (by decide) (by decide)

end StateDictH5

